import Mathlib

/-!
Verification of the hail-router navigation controller
(src/src/router/router.ts, src/unnamed/part_000 = the deep-clone
utility).

The development shallowly embeds the router's data model and operations:

* `Route` / `InternalRoute` and `parseRoutes` embed the route-declaration
  tree and the flattening pass (router.ts lines 11-28, 174-205).
* `getMatchingRoute` embeds the matcher (lines 207-224); the URLPattern
  collaborator is a parameter `test : String → String → Bool`.
* `DomNode`/`DomForest`, `replaceRouteNodes`, `removeRouteElement` and
  `reversedRouteNodeRemoval` embed the live DOM subtree and the
  reconciliation pass (lines 125-151, 226-245); animation and DOM calls
  are recorded in an event trace `List Ev` in the order the code awaits
  them.
* `navigate` embeds the navigation state machine (lines 83-164).  The
  recursion over redirect hops is driven by explicit fuel; the wrapper
  `navigate` supplies fuel that provably outlasts the 200-hop redirect
  guard, so the fuel-exhaustion branch is unreachable from any reachable
  redirection count.
* `HeapRoute`, `Heap` and `parseRoutesH` re-embed the flattening pass
  with an explicit store so that sharing of the underlying sequence
  arrays between chains (the concern addressed by the deep-clone
  utility) can be stated and refuted.

JS machine integers do not occur: all counters are small naturals.
Strings are embedded as Lean strings.  The deep-clone utility on the
pure value model is the identity (Lean values are immutable), which is
exactly what the deep clone guarantees observationally; aliasing
questions are handled by the explicit-store model.
-/

set_option maxHeartbeats 4000000
set_option maxRecDepth 100000

namespace HailRouter

/-- Animation pair attached to a route or element: the keyframe specs are
opaque, only identity matters.  Embeds the TS
`{ show: ElementAnimation; hide: ElementAnimation }` pair. -/
structure AnimPair where
  showSpec : String
  hideSpec : String
deriving DecidableEq, Repr

mutual

/-- A route declaration (TS interface `Route`).  `action` embeds the
async factory: `none` = no factory; `some r` = a factory whose awaited
result is `r`, where `r = none` embeds a void/undefined result and
`r = some tag` embeds a constructible element class producing a node
with tag name `tag`.  `children` is the list of nested declarations,
encoded as a mutually inductive forest so that structural recursion over
the tree is available. -/
inductive Route where
  | mk (path : String) (name : Option String) (component : Option String)
       (action : Option (Option String)) (animation : Option AnimPair)
       (redirect : Option String) (children : RouteForest)

/-- A list of route declarations (TS `Route[]`). -/
inductive RouteForest where
  | nil
  | cons (head : Route) (tail : RouteForest)

end

def Route.path : Route → String
  | .mk p _ _ _ _ _ _ => p

def Route.name : Route → Option String
  | .mk _ n _ _ _ _ _ => n

def Route.component : Route → Option String
  | .mk _ _ c _ _ _ _ => c

def Route.action : Route → Option (Option String)
  | .mk _ _ _ a _ _ _ => a

def Route.animation : Route → Option AnimPair
  | .mk _ _ _ _ a _ _ => a

def Route.redirect : Route → Option String
  | .mk _ _ _ _ _ r _ => r

def Route.children : Route → RouteForest
  | .mk _ _ _ _ _ _ c => c

/-- A flattened chain (TS interface `InternalRoute`): per-depth parallel
sequences, one entry per ancestor, index `length - 1` being the declared
node itself. -/
structure InternalRoute where
  path : List String
  name : Option String
  component : List (Option String)
  action : List (Option (Option String))
  animation : List (Option AnimPair)
  redirect : List (Option String)
deriving DecidableEq, Repr

/-- The chain every flattening starts from (the default value of the
`route` parameter of `parseRoutes`). -/
def emptyInternalRoute : InternalRoute :=
  { path := [], name := none, component := [], action := [], animation := [], redirect := [] }

/-- One step of `parseRoutes`'s loop body: deep-copy the parent chain
(pure values, so the copy is the value itself), overwrite `name`, and
push the node's own entries onto the five sequences. -/
def appendRoute (route : InternalRoute) (r : Route) : InternalRoute :=
  { path := route.path ++ [r.path]
    name := r.name
    component := route.component ++ [r.component]
    action := route.action ++ [r.action]
    animation := route.animation ++ [r.animation]
    redirect := route.redirect ++ [r.redirect] }

mutual

/-- Body of the `routes.forEach` loop of `parseRoutes` (router.ts lines
189-202) for a single declaration `r`: push the cloned-and-extended
chain onto the accumulator and recurse into the children with it as the
new parent chain. -/
def parseRoutesOne : Route → List InternalRoute → InternalRoute → List InternalRoute
  | .mk p n c a an rd ch, parsedRoutes, route =>
      let clonedRoute := appendRoute route (.mk p n c a an rd ch)
      parseRoutesList ch (parsedRoutes ++ [clonedRoute]) clonedRoute

/-- The flattening pass (router.ts lines 174-205): fold the loop body
over the declaration list, threading the accumulator. -/
def parseRoutesList : RouteForest → List InternalRoute → InternalRoute → List InternalRoute
  | .nil, parsedRoutes, _ => parsedRoutes
  | .cons r rs, parsedRoutes, route =>
      parseRoutesList rs (parseRoutesOne r parsedRoutes route) route

end

/-- Entry point of the flattening pass with the TS default arguments. -/
def parseRoutes (routes : RouteForest) : List InternalRoute :=
  parseRoutesList routes [] emptyInternalRoute

mutual

/-- The chains contributed by one subtree rooted at `r`, given the
already-flattened parent chain: the node's own chain followed by its
children's contributions (helper used to reason about the accumulator
threading of `parseRoutesList`). -/
def chainsOfRoute : Route → InternalRoute → List InternalRoute
  | .mk p n c a an rd ch, route =>
      let cl := appendRoute route (.mk p n c a an rd ch)
      cl :: chainsOfForest ch cl

/-- Forest version of `chainsOfRoute`. -/
def chainsOfForest : RouteForest → InternalRoute → List InternalRoute
  | .nil, _ => []
  | .cons r rs, route => chainsOfRoute r route ++ chainsOfForest rs route

end


mutual

/-- Spec-side pre-order description of flattening, for one node: the
spec says every declared node, parent before children and children in
declared order, yields one chain whose path sequence is the root-to-node
list of path segments.  `pre` is the ancestors' path list. -/
def prePathsRoute (pre : List String) : Route → List (List String)
  | .mk p _ _ _ _ _ ch => (pre ++ [p]) :: prePathsForest (pre ++ [p]) ch

/-- Forest version of `prePathsRoute`. -/
def prePathsForest (pre : List String) : RouteForest → List (List String)
  | .nil => []
  | .cons r rs => prePathsRoute pre r ++ prePathsForest pre rs

end

mutual

/-- Spec-side pre-order list of node depths, for one node rooted at
depth `d`. -/
def preDepthsRoute (d : Nat) : Route → List Nat
  | .mk _ _ _ _ _ _ ch => d :: preDepthsForest (d + 1) ch

/-- Forest version of `preDepthsRoute`. -/
def preDepthsForest (d : Nat) : RouteForest → List Nat
  | .nil => []
  | .cons r rs => preDepthsRoute d r ++ preDepthsForest d rs

end

/-- A chain is balanced when its five per-depth sequences all have the
same length. -/
def InternalRoute.balanced (c : InternalRoute) : Prop :=
  c.component.length = c.path.length ∧ c.action.length = c.path.length ∧
  c.animation.length = c.path.length ∧ c.redirect.length = c.path.length

instance (c : InternalRoute) : Decidable c.balanced := by
  unfold InternalRoute.balanced; infer_instance

/-- The matcher (router.ts lines 207-224): scan the flattened table in
stored order and return the first chain whose slash-joined path pattern
matches the candidate route.  The URLPattern collaborator is the
parameter `test` (pattern, candidate route). -/
def getMatchingRoute (test : String → String → Bool) (routes : List InternalRoute)
    (route : String) : Option InternalRoute :=
  routes.find? (fun r => test (String.intercalate "/" r.path) route)

/-- Modelled from the spec: the pattern-matching collaborator
(URLPattern) is outside the repository; per the external-interface
section it tests a candidate path against the slash-joined pattern
relative to a base URL.  This concrete instance covers the literal and
catch-all patterns of the spec's examples: a pattern matches when it is
the wildcard, or the candidate equals it, or equals it after prefixing a
slash. -/
def urlPatternTest (pattern : String) (route : String) : Bool :=
  pattern == "*" || route == pattern || route == "/" ++ pattern

/-- Redirect guard constant (router.ts line 35). -/
def MAX_REDIRECTIONS : Nat := 200

/-- The redirect target consulted by `navigate` (line 114):
`futureRoute.redirect.at(-1)`, which is undefined when the list is
empty or its last entry is undefined. -/
def whereToRedirect (futureRoute : InternalRoute) : Option String :=
  futureRoute.redirect.getLast?.bind id

mutual

/-- A live DOM element under the outlet: identity, tag name, the
attached `__routeAnimation` metadata, and child elements.  Children are
a mutually inductive forest so that structural recursion over the
subtree is available. -/
inductive DomNode where
  | mk (id : Nat) (tag : String) (anim : Option AnimPair) (children : DomForest)

/-- A list of sibling DOM elements. -/
inductive DomForest where
  | nil
  | cons (head : DomNode) (tail : DomForest)

end

def DomNode.id : DomNode → Nat
  | .mk i _ _ _ => i

def DomNode.tag : DomNode → String
  | .mk _ t _ _ => t

def DomNode.anim : DomNode → Option AnimPair
  | .mk _ _ a _ => a

def DomNode.children : DomNode → DomForest
  | .mk _ _ _ c => c

/-- Replace an element's child list, keeping identity, tag and attached
animation (models in-place mutation of the subtree). -/
def DomNode.withChildren : DomNode → DomForest → DomNode
  | .mk i t a _, cs => .mk i t a cs

def DomForest.toList : DomForest → List DomNode
  | .nil => []
  | .cons h t => h :: t.toList

def DomForest.ofList : List DomNode → DomForest
  | [] => .nil
  | h :: t => .cons h (DomForest.ofList t)

/-- The tag names of a forest's elements, in order. -/
def DomForest.tags (f : DomForest) : List String :=
  f.toList.map DomNode.tag

/-- Observable effects of reconciliation, in the order the code awaits
them: `stopAnimations`, `animateTo` with a show (enter) or hide (exit)
animation, detaching an element (`el.remove()`), and
`insertAdjacentElement`. -/
inductive Ev where
  | stopAnim (id : Nat)
  | playShow (id : Nat)
  | playHide (id : Nat)
  | removed (id : Nat)
  | inserted (id : Nat)
deriving DecidableEq, Repr

/-- `removeRouteElement` (router.ts lines 226-234): stop any running
animation, play the attached hide animation if present, then detach. -/
def removeRouteElement (el : DomNode) : List Ev :=
  (match el.anim with
   | some _ => [Ev.stopAnim el.id, Ev.playHide el.id]
   | none => []) ++ [Ev.removed el.id]

mutual

/-- The effect trace of `reversedRouteNodeRemoval(node, true)`
(router.ts lines 236-245): the while loop fully tears down each child
subtree bottom-up, then the node itself is animated out and detached. -/
def subtreeRemoveEv : DomNode → List Ev
  | .mk i t a cs => clearChildrenEv cs ++ removeRouteElement (.mk i t a cs)

/-- The effect trace of the while loop of `reversedRouteNodeRemoval`:
for each child in order, recursively clear its subtree, then remove the
child itself. -/
def clearChildrenEv : DomForest → List Ev
  | .nil => []
  | .cons c rest => subtreeRemoveEv c ++ clearChildrenEv rest

end

/-- `reversedRouteNodeRemoval(node, removeParent?)` as an effect trace:
children are always cleared; the node itself is removed only when
`removeParent` is set.  The resulting subtree is the node with no
children (or nothing, when the node itself was removed). -/
def reversedRouteNodeRemoval (node : DomNode) (removeParent : Bool) : List Ev :=
  clearChildrenEv node.children ++ (if removeParent then removeRouteElement node else [])

/-- Enter-animation events played right after inserting an element
(router.ts lines 143-147). -/
def showEv (nodeToInsert : DomNode) : List Ev :=
  match nodeToInsert.anim with
  | some _ => [Ev.stopAnim nodeToInsert.id, Ev.playShow nodeToInsert.id]
  | none => []

/-- The recursive reconciler `replaceRouteNodes` (router.ts lines
125-151), recursing on the not-yet-consumed suffix of the component
chain (the TS `depth` index is the length already consumed).  Returns
the parent with its reconciled subtree, plus the effect trace.

Per depth: when the chain is exhausted, clear the parent's remaining
descendants; otherwise remove (animated, bottom-up) every child whose
tag differs from the element to insert, then either recurse into the
surviving first child, or insert the new element as first child, play
its enter animation, and recurse into it. -/
def replaceRouteNodesGo : List DomNode → DomNode → DomNode × List Ev
  | [], parent => (parent.withChildren .nil, clearChildrenEv parent.children)
  | nodeToInsert :: restChain, parent =>
      let childElements := parent.children.toList
      let invalidNodes := childElements.filter (fun el => el.tag != nodeToInsert.tag)
      let removalEv := (invalidNodes.map subtreeRemoveEv).flatten
      match childElements.filter (fun el => el.tag == nodeToInsert.tag) with
      | survivor :: others =>
          let (survivorNew, evs) := replaceRouteNodesGo restChain survivor
          (parent.withChildren (.ofList (survivorNew :: others)), removalEv ++ evs)
      | [] =>
          let (nodeNew, evs) := replaceRouteNodesGo restChain nodeToInsert
          (parent.withChildren (.ofList [nodeNew]),
           removalEv ++ Ev.inserted nodeToInsert.id :: (showEv nodeToInsert ++ evs))

/-- `replaceRouteNodes(parent, depth)` with the component chain in
scope, as in the TS closure. -/
def replaceRouteNodes (componentChain : List DomNode) (parent : DomNode) (depth : Nat) :
    DomNode × List Ev :=
  replaceRouteNodesGo (componentChain.drop depth) parent

/-- Router instance state threaded through `navigate`: the redirection
counter, the path last written to the history collaborator, the outlet's
live subtree, and a fresh-identity counter for elements created during
view materialization. -/
structure RouterSt where
  redirectionCount : Nat
  historyRoute : Option String
  outlet : DomNode
  nextId : Nat

/-- Outcome of one `navigate` invocation once the microtask queue has
drained: the value its own promise settles with (`Except.error` = the
promise rejects), the final router state, the DOM/animation effect
trace, the rejections of recursively spawned navigations that nothing
awaits (line 120 discards the inner promise), and the number of redirect
hops (recursive `navigate` invocations) performed. -/
structure NavOut where
  result : Except String (Option String)
  st : RouterSt
  events : List Ev
  unhandled : List String
  hops : Nat

/-- The error text thrown at router.ts line 117. -/
def circularMsg : String := "Circular redirections detected."

deriving instance DecidableEq for Except

/-- One element of the component chain (router.ts lines 97-111):
invoke the depth's factory; a constructible result wins, otherwise
create a plain element with the depth's component tag (or the generic
div); attach the depth's animation pair. -/
def materializeEl (futureRoute : InternalRoute) (nextId : Nat) (i : Nat) : DomNode :=
  let actionResult : Option String := ((futureRoute.action[i]?).bind id).bind id
  let tagName := match actionResult with
    | some t => t
    | none => ((futureRoute.component[i]?).bind id).getD "div"
  .mk (nextId + i) tagName ((futureRoute.animation[i]?).bind id) .nil

/-- The component chain materialized for a matched route (the loop at
router.ts lines 97-111), with fresh identities from `nextId`. -/
def materialize (futureRoute : InternalRoute) (nextId : Nat) : List DomNode :=
  (List.range futureRoute.component.length).map (materializeEl futureRoute nextId)

/-- `navigate` (router.ts lines 83-164) with explicit recursion fuel
(structural recursion; the wrapper `navigate` supplies fuel exceeding
what the redirect guard permits, making the fuel-out branch, which acts
as a resolved no-op, unreachable).  Steps: match the route (no match
resolves with undefined and does nothing); materialize the component
chain; if the chain's own deepest redirect entry is defined, throw once
the counter exceeds the guard, else bump the counter and recurse on the
target, resolving this invocation with undefined and leaving any inner
rejection unhandled; otherwise write the route to history, reconcile the
outlet, reset the counter and resolve with the route. -/
def navigateAux (routes : List InternalRoute) (test : String → String → Bool) :
    Nat → String → RouterSt → NavOut
  | 0, _, st => ⟨.ok none, st, [], [], 0⟩
  | fuel + 1, route, st =>
      match getMatchingRoute test routes route with
      | none => ⟨.ok none, st, [], [], 0⟩
      | some futureRoute =>
          let componentChain := materialize futureRoute st.nextId
          let st1 : RouterSt := { st with nextId := st.nextId + futureRoute.component.length }
          match whereToRedirect futureRoute with
          | some target =>
              if st1.redirectionCount > MAX_REDIRECTIONS then
                ⟨.error circularMsg, st1, [], [], 0⟩
              else
                let inner := navigateAux routes test fuel target
                  { st1 with redirectionCount := st1.redirectionCount + 1 }
                ⟨.ok none, inner.st, inner.events,
                 inner.unhandled ++ (match inner.result with | .error e => [e] | .ok _ => []),
                 inner.hops + 1⟩
          | none =>
              let reconciled := replaceRouteNodes componentChain st1.outlet 0
              ⟨.ok (some route),
               { st1 with historyRoute := some route, outlet := reconciled.1,
                          redirectionCount := 0 },
               reconciled.2, [], 0⟩

/-- One outer `navigate` call: fuel `MAX_REDIRECTIONS + 2 - count`
always outlasts the redirect guard (each hop increments the counter and
the guard faults strictly above `MAX_REDIRECTIONS`), so the model never
exhausts fuel. -/
def navigate (routes : List InternalRoute) (test : String → String → Bool)
    (route : String) (st : RouterSt) : NavOut :=
  navigateAux routes test (MAX_REDIRECTIONS + 2 - st.redirectionCount) route st

/-- Follow one redirect hop from a path: the deepest redirect target of
the matched chain when there is one, else the path itself (a fixed
point: such a path hops no further). -/
def redirectStep (routes : List InternalRoute) (test : String → String → Bool)
    (r : String) : String :=
  match getMatchingRoute test routes r with
  | some c =>
      match whereToRedirect c with
      | some target => target
      | none => r
  | none => r

/-- The redirect orbit of a navigated path: the path reached after `k`
redirect hops. -/
def redirectOrbit (routes : List InternalRoute) (test : String → String → Bool)
    (route : String) : Nat → String
  | 0 => route
  | k + 1 => redirectStep routes test (redirectOrbit routes test route k)

/-- A redirect cycle reachable from the navigated path `route`: every
path in the redirect orbit of `route` matches a chain whose own
(deepest) redirect entry is defined, so navigation keeps hopping.  This
covers a node redirecting to itself directly or via a cycle of other
nodes, and asks nothing of paths the navigation never visits. -/
def RedirectCycleFrom (routes : List InternalRoute) (test : String → String → Bool)
    (route : String) : Prop :=
  ∀ k : Nat, ∃ c target,
    getMatchingRoute test routes (redirectOrbit routes test route k) = some c ∧
    whereToRedirect c = some target

/-- A flattened chain in the explicit-store model: the five sequences
are references into the store, `name` is inline (it is a scalar in the
TS record, copied by value). -/
structure HeapRoute where
  pathRef : Nat
  compRef : Nat
  actRef : Nat
  animRef : Nat
  redRef : Nat
  name : Option String
deriving DecidableEq, Repr

/-- The store: an allocation counter and one array store per sequence
kind (addresses are globally unique across kinds: each allocation takes
five consecutive addresses). -/
structure Heap where
  next : Nat
  pathA : Nat → List String
  compA : Nat → List (Option String)
  actA : Nat → List (Option (Option String))
  animA : Nat → List (Option AnimPair)
  redA : Nat → List (Option String)

/-- Pointwise store update. -/
def upd {α : Type} (f : Nat → α) (r : Nat) (v : α) : Nat → α :=
  fun n => if n = r then v else f n

/-- The loop body of `parseRoutes` in the store model: the deep clone
allocates five fresh arrays copying the parent chain's contents, and the
five pushes append the node's own entries to those fresh arrays. -/
def cloneAndPush (h : Heap) (p : HeapRoute) (r : Route) : HeapRoute × Heap :=
  let n := h.next
  (⟨n, n + 1, n + 2, n + 3, n + 4, r.name⟩,
   { next := n + 5
     pathA := upd h.pathA n (h.pathA p.pathRef ++ [r.path])
     compA := upd h.compA (n + 1) (h.compA p.compRef ++ [r.component])
     actA := upd h.actA (n + 2) (h.actA p.actRef ++ [r.action])
     animA := upd h.animA (n + 3) (h.animA p.animRef ++ [r.animation])
     redA := upd h.redA (n + 4) (h.redA p.redRef ++ [r.redirect]) })

mutual

/-- Store-model flattening, single declaration (mirrors
`parseRoutesOne`). -/
def parseRoutesOneH : Route → List HeapRoute → HeapRoute → Heap → List HeapRoute × Heap
  | .mk p n c a an rd ch, parsed, route, h =>
      let alloc := cloneAndPush h route (.mk p n c a an rd ch)
      parseRoutesListH ch (parsed ++ [alloc.1]) alloc.1 alloc.2

/-- Store-model flattening, declaration list (mirrors
`parseRoutesList`). -/
def parseRoutesListH : RouteForest → List HeapRoute → HeapRoute → Heap → List HeapRoute × Heap
  | .nil, parsed, _, h => (parsed, h)
  | .cons r rs, parsed, route, h =>
      let step := parseRoutesOneH r parsed route h
      parseRoutesListH rs step.1 route step.2

end

/-- The store after allocating the initial empty chain (the default
`route` argument object and its five empty arrays, at addresses 0-4). -/
def emptyHeap : Heap :=
  ⟨5, fun _ => [], fun _ => [], fun _ => [], fun _ => [], fun _ => []⟩

/-- Reference record of the initial empty chain. -/
def rootHeapRoute : HeapRoute := ⟨0, 1, 2, 3, 4, none⟩

/-- Store-model entry point of the flattening pass. -/
def parseRoutesH (routes : RouteForest) : List HeapRoute × Heap :=
  parseRoutesListH routes [] rootHeapRoute emptyHeap

/-- Dereference a chain's sequences in a store. -/
def readChain (h : Heap) (c : HeapRoute) : InternalRoute :=
  ⟨h.pathA c.pathRef, c.name, h.compA c.compRef, h.actA c.actRef,
   h.animA c.animRef, h.redA c.redRef⟩

/-- Mutate the path array at address `r` (models
`chain.path.push(...)` and friends performed after flattening). -/
def writePath (h : Heap) (r : Nat) (v : List String) : Heap :=
  { h with pathA := upd h.pathA r v }

/-- Mutate the component array at address `r`. -/
def writeComp (h : Heap) (r : Nat) (v : List (Option String)) : Heap :=
  { h with compA := upd h.compA r v }

/-- Mutate the action array at address `r`. -/
def writeAct (h : Heap) (r : Nat) (v : List (Option (Option String))) : Heap :=
  { h with actA := upd h.actA r v }

/-- Mutate the animation array at address `r`. -/
def writeAnim (h : Heap) (r : Nat) (v : List (Option AnimPair)) : Heap :=
  { h with animA := upd h.animA r v }

/-- Mutate the redirect array at address `r`. -/
def writeRed (h : Heap) (r : Nat) (v : List (Option String)) : Heap :=
  { h with redA := upd h.redA r v }

/-- The five store addresses a chain holds. -/
def HeapRoute.refs (c : HeapRoute) : List Nat :=
  [c.pathRef, c.compRef, c.actRef, c.animRef, c.redRef]

/-- Chains sharing no underlying array. -/
def HeapRoute.disjointFrom (c d : HeapRoute) : Prop :=
  ∀ r ∈ c.refs, r ∉ d.refs

instance (c d : HeapRoute) : Decidable (c.disjointFrom d) := by
  unfold HeapRoute.disjointFrom; infer_instance

/-- All of a chain's references lie below a bound (used to track
freshness of allocations). -/
def HeapRoute.below (c : HeapRoute) (m : Nat) : Prop :=
  ∀ r ∈ c.refs, r < m

instance (c : HeapRoute) (m : Nat) : Decidable (c.below m) := by
  unfold HeapRoute.below; infer_instance

/-- Walk `k` first-child steps down from an element (teeth of the
mounted chain under the outlet). -/
def firstChildSpine : DomNode → Nat → Option DomNode
  | n, 0 => some n
  | n, k + 1 =>
      match n.children with
      | .nil => none
      | .cons c _ => firstChildSpine c k

/-- The ids of the detach events of a trace, in order. -/
def removedIds (evs : List Ev) : List Nat :=
  evs.filterMap (fun e => match e with | .removed i => some i | _ => none)

mutual

/-- Post-order (children fully before their parent, siblings in order)
identity listing of a subtree. -/
def postorderIdsNode : DomNode → List Nat
  | .mk i _ _ cs => postorderIdsForest cs ++ [i]

/-- Forest version of `postorderIdsNode`. -/
def postorderIdsForest : DomForest → List Nat
  | .nil => []
  | .cons c rest => postorderIdsNode c ++ postorderIdsForest rest

end

/-- Every enter animation in `evs` plays for an element that was
inserted earlier: either in the prefix `pfx` of events already played,
or at a strictly earlier position of `evs` itself. -/
def showAfterInsert (pfx evs : List Ev) : Prop :=
  ∀ (n i : Nat), evs[n]? = some (Ev.playShow i) →
    Ev.inserted i ∈ pfx ∨ ∃ m < n, evs[m]? = some (Ev.inserted i)

/-- Example fixture: a single self-redirecting catch-all route (node X
redirecting back into itself), used for the redirect-loop claims. -/
def loopRoutes : RouteForest :=
  .cons (.mk "*" none none none none (some "/x") .nil) .nil

/-- Flattened table of `loopRoutes`. -/
def loopTable : List InternalRoute := parseRoutes loopRoutes

/-- Example fixture: a literal-path node x that redirects to its own
path /x (a redirect cycle reachable from /x, while other paths match
nothing). -/
def selfLoopRoutes : RouteForest :=
  .cons (.mk "x" none none none none (some "/x") .nil) .nil

/-- Flattened table of `selfLoopRoutes`. -/
def selfLoopTable : List InternalRoute := parseRoutes selfLoopRoutes

/-- Example fixture from the spec: a home view and a route redirecting
to it. -/
def homeRoutes : RouteForest :=
  .cons (.mk "home" none (some "home-view") none none none .nil)
    (.cons (.mk "away" none none none none (some "home") .nil) .nil)

/-- Flattened table of `homeRoutes`. -/
def homeTable : List InternalRoute := parseRoutes homeRoutes

/-- Example fixture from the spec: a catch-all declared before a
literal sibling. -/
def wildRoutes : RouteForest :=
  .cons (.mk "*" none none none none none .nil)
    (.cons (.mk "users" none none none none none .nil) .nil)

/-- Flattened table of `wildRoutes`. -/
def wildTable : List InternalRoute := parseRoutes wildRoutes

/-- Example fixture from the spec: a parent with two leaf children,
flattening to the chains a, a/b, a/c. -/
def abRoutes : RouteForest :=
  .cons (.mk "a" none none none none none
    (.cons (.mk "b" none none none none none .nil)
      (.cons (.mk "c" none none none none none .nil) .nil))) .nil

/-- Example fixture: a parent declaring a redirect with a child
declaring none, so the child's chain has a defined redirect entry only
at an ancestor index. -/
def nestedRedirectRoutes : RouteForest :=
  .cons (.mk "p" none none none none (some "/x")
    (.cons (.mk "q" none none none none none .nil) .nil)) .nil

/-- Flattened table of `nestedRedirectRoutes`. -/
def nestedTable : List InternalRoute := parseRoutes nestedRedirectRoutes

/-- Mounted element B of the spec's exit-before-enter example: the
depth-1 child to be replaced, with an attached animation pair. -/
def nodeB : DomNode := .mk 2 "b-view" (some ⟨"b-in", "b-out"⟩) .nil

/-- Mounted element A of the spec's exit-before-enter example, with
child B. -/
def nodeA : DomNode := .mk 1 "a-view" (some ⟨"a-in", "a-out"⟩) (.cons nodeB .nil)

/-- Desired replacement element C at depth 1 of the spec's
exit-before-enter example. -/
def nodeC : DomNode := .mk 4 "c-view" (some ⟨"c-in", "c-out"⟩) .nil

/-- An empty outlet element. -/
def outlet0 : DomNode := .mk 0 "router-outlet" none .nil

/-- Initial router state: counter zero, no history entry, empty outlet,
element identities from 1. -/
def initialSt : RouterSt := ⟨0, none, outlet0, 1⟩

theorem appendRoute_balanced {route : InternalRoute} (h : route.balanced) (r : Route) :
    (appendRoute route r).balanced := by
  obtain ⟨h1, h2, h3, h4⟩ := h
  simp [appendRoute, InternalRoute.balanced, h1, h2, h3, h4]

mutual

theorem chainsOfRoute_paths (r : Route) :
    ∀ route : InternalRoute, (chainsOfRoute r route).map (·.path) = prePathsRoute route.path r := by
  cases r with
  | mk p n c a an rd ch =>
      intro route
      rw [chainsOfRoute, prePathsRoute]
      simp only [List.map_cons]
      rw [chainsOfForest_paths ch]
      simp [appendRoute, Route.path]

theorem chainsOfForest_paths (rs : RouteForest) :
    ∀ route : InternalRoute, (chainsOfForest rs route).map (·.path) = prePathsForest route.path rs := by
  cases rs with
  | nil => intro route; rw [chainsOfForest, prePathsForest]; simp
  | cons r rs =>
      intro route
      rw [chainsOfForest, prePathsForest]
      simp only [List.map_append]
      rw [chainsOfRoute_paths r, chainsOfForest_paths rs]

end

mutual

theorem chainsOfRoute_depths (r : Route) :
    ∀ route : InternalRoute,
      (chainsOfRoute r route).map (·.path.length)
        = (preDepthsRoute route.path.length r).map (· + 1) := by
  cases r with
  | mk p n c a an rd ch =>
      intro route
      rw [chainsOfRoute, preDepthsRoute]
      simp only [List.map_cons]
      rw [chainsOfForest_depths ch]
      simp [appendRoute, Route.path]

theorem chainsOfForest_depths (rs : RouteForest) :
    ∀ route : InternalRoute,
      (chainsOfForest rs route).map (·.path.length)
        = (preDepthsForest route.path.length rs).map (· + 1) := by
  cases rs with
  | nil => intro route; rw [chainsOfForest, preDepthsForest]; simp
  | cons r rs =>
      intro route
      rw [chainsOfForest, preDepthsForest]
      simp only [List.map_append]
      rw [chainsOfRoute_depths r, chainsOfForest_depths rs]

end

mutual

theorem chainsOfRoute_balanced (r : Route) :
    ∀ route : InternalRoute, route.balanced →
      ∀ c ∈ chainsOfRoute r route, c.balanced := by
  cases r with
  | mk p n c a an rd ch =>
      intro route hb c hc
      rw [chainsOfRoute] at hc
      rcases List.mem_cons.mp hc with h | h
      · subst h; exact appendRoute_balanced hb _
      · exact chainsOfForest_balanced ch _ (appendRoute_balanced hb _) c h

theorem chainsOfForest_balanced (rs : RouteForest) :
    ∀ route : InternalRoute, route.balanced →
      ∀ c ∈ chainsOfForest rs route, c.balanced := by
  cases rs with
  | nil => intro route _ c hc; rw [chainsOfForest] at hc; simp at hc
  | cons r rs =>
      intro route hb c hc
      rw [chainsOfForest] at hc
      rcases List.mem_append.mp hc with h | h
      · exact chainsOfRoute_balanced r _ hb c h
      · exact chainsOfForest_balanced rs _ hb c h

end

theorem find?_first_characterization {α : Type} (p : α → Bool) :
    ∀ l : List α, ∀ c : α,
      l.find? p = some c ↔
        ∃ pre post, l = pre ++ c :: post ∧ p c = true ∧ ∀ x ∈ pre, p x = false := by
  intro l
  induction l with
  | nil =>
      intro c
      constructor
      · intro h; simp [List.find?] at h
      · rintro ⟨pre, post, habs, -, -⟩
        exact absurd habs (by simp)
  | cons a l ih =>
      intro c
      constructor
      · intro h
        rcases ha : p a with _ | _
        · rw [List.find?_cons_of_neg _ (by simp [ha])] at h
          obtain ⟨pre, post, h1, h2, h3⟩ := (ih c).mp h
          refine ⟨a :: pre, post, by simp [h1], h2, ?_⟩
          intro x hx
          rcases List.mem_cons.mp hx with rfl | hx
          · exact ha
          · exact h3 x hx
        · rw [List.find?_cons_of_pos _ ha] at h
          obtain rfl : a = c := by injection h
          exact ⟨[], l, rfl, ha, by simp⟩
      · rintro ⟨pre, post, h1, h2, h3⟩
        cases pre with
        | nil =>
            obtain rfl : a = c := by simpa using congrArg (·.head?) h1
            exact List.find?_cons_of_pos _ h2
        | cons b pre =>
            have hb : a = b ∧ l = pre ++ c :: post := by
              constructor
              · simpa using congrArg (·.head?) h1
              · simpa using congrArg (·.tail) h1
            obtain ⟨rfl, hl⟩ := hb
            rw [List.find?_cons_of_neg _ (by simp [h3 a (by simp)])]
            exact (ih c).mpr ⟨pre, post, hl, h2, fun x hx => h3 x (by simp [hx])⟩

theorem find?_none_characterization {α : Type} (p : α → Bool) :
    ∀ l : List α, l.find? p = none ↔ ∀ x ∈ l, p x = false := by
  intro l
  induction l with
  | nil => simp [List.find?]
  | cons a l ih =>
      rcases ha : p a with _ | _
      · rw [List.find?_cons_of_neg _ (by simp [ha])]
        simp only [List.mem_cons]
        constructor
        · intro h x hx
          rcases hx with rfl | hx
          · exact ha
          · exact ih.mp h x hx
        · intro h; exact ih.mpr (fun x hx => h x (Or.inr hx))
      · rw [List.find?_cons_of_pos _ ha]
        simp only [List.mem_cons]
        constructor
        · intro h; cases h
        · intro h; rw [h a (Or.inl rfl)] at ha; cases ha

mutual

theorem parseRoutesOne_eq_chains (r : Route) :
    ∀ parsed route, parseRoutesOne r parsed route = parsed ++ chainsOfRoute r route := by
  cases r with
  | mk p n c a an rd ch =>
      intro parsed route
      rw [parseRoutesOne, chainsOfRoute]
      rw [parseRoutesList_eq_chains ch]
      simp

theorem parseRoutesList_eq_chains (rs : RouteForest) :
    ∀ parsed route, parseRoutesList rs parsed route = parsed ++ chainsOfForest rs route := by
  cases rs with
  | nil => intro parsed route; rw [parseRoutesList, chainsOfForest]; simp
  | cons r rs =>
      intro parsed route
      rw [parseRoutesList, chainsOfForest]
      rw [parseRoutesOne_eq_chains r, parseRoutesList_eq_chains rs]
      simp

end

theorem HeapRoute.below_mono {c : HeapRoute} {m m' : Nat} (h : c.below m) (hm : m ≤ m') :
    c.below m' :=
  fun r hr => lt_of_lt_of_le (h r hr) hm

theorem HeapRoute.disjointFrom_symm {c d : HeapRoute} (h : c.disjointFrom d) :
    d.disjointFrom c :=
  fun r hr hc => h r hc hr

theorem below_disjoint {c d : HeapRoute} {m : Nat}
    (hc : c.below m) (hd : ∀ a ∈ d.refs, m ≤ a) : c.disjointFrom d :=
  fun r hr hrd => absurd (hd r hrd) (not_le.mpr (hc r hr))

theorem cloneAndPush_refs (h : Heap) (p : HeapRoute) (r : Route) :
    (cloneAndPush h p r).1.refs
      = [h.next, h.next + 1, h.next + 2, h.next + 3, h.next + 4] := rfl

theorem cloneAndPush_next (h : Heap) (p : HeapRoute) (r : Route) :
    (cloneAndPush h p r).2.next = h.next + 5 := rfl

theorem cloneAndPush_fresh (h : Heap) (p : HeapRoute) (r : Route) :
    ∀ a ∈ (cloneAndPush h p r).1.refs, h.next ≤ a := by
  intro a ha
  rw [cloneAndPush_refs] at ha
  simp only [List.mem_cons, List.not_mem_nil, or_false] at ha
  rcases ha with rfl | rfl | rfl | rfl | rfl <;> omega

theorem cloneAndPush_below (h : Heap) (p : HeapRoute) (r : Route) :
    (cloneAndPush h p r).1.below (cloneAndPush h p r).2.next := by
  intro a ha
  rw [cloneAndPush_refs] at ha
  rw [cloneAndPush_next]
  simp only [List.mem_cons, List.not_mem_nil, or_false] at ha
  rcases ha with rfl | rfl | rfl | rfl | rfl <;> omega

mutual

theorem parseRoutesOneH_inv (r : Route) :
    ∀ (parsed : List HeapRoute) (route : HeapRoute) (h : Heap),
      (∀ c ∈ parsed, c.below h.next) → route.below h.next →
      List.Pairwise HeapRoute.disjointFrom parsed →
      (∀ c ∈ (parseRoutesOneH r parsed route h).1,
          c.below (parseRoutesOneH r parsed route h).2.next) ∧
      List.Pairwise HeapRoute.disjointFrom (parseRoutesOneH r parsed route h).1 ∧
      h.next ≤ (parseRoutesOneH r parsed route h).2.next := by
  cases r with
  | mk p n c a an rd ch =>
      intro parsed route h hparsed hroute hpw
      rw [parseRoutesOneH]
      have hnext := cloneAndPush_next h route (.mk p n c a an rd ch)
      have hbelow := cloneAndPush_below h route (.mk p n c a an rd ch)
      have hfresh := cloneAndPush_fresh h route (.mk p n c a an rd ch)
      have hparsed' : ∀ c' ∈ parsed ++ [(cloneAndPush h route (.mk p n c a an rd ch)).1],
          c'.below (cloneAndPush h route (.mk p n c a an rd ch)).2.next := by
        intro c' hc'
        rcases List.mem_append.mp hc' with hc' | hc'
        · exact HeapRoute.below_mono (hparsed c' hc') (by rw [hnext]; omega)
        · rw [List.mem_singleton.mp hc']; exact hbelow
      have hpw' : List.Pairwise HeapRoute.disjointFrom
          (parsed ++ [(cloneAndPush h route (.mk p n c a an rd ch)).1]) := by
        rw [List.pairwise_append]
        refine ⟨hpw, List.pairwise_singleton _ _, ?_⟩
        intro x hx y hy
        rw [List.mem_singleton.mp hy]
        exact below_disjoint (hparsed x hx) hfresh
      have := parseRoutesListH_inv ch
        (parsed ++ [(cloneAndPush h route (.mk p n c a an rd ch)).1])
        (cloneAndPush h route (.mk p n c a an rd ch)).1
        (cloneAndPush h route (.mk p n c a an rd ch)).2
        hparsed' hbelow hpw'
      exact ⟨this.1, this.2.1, le_trans (by omega) this.2.2⟩

theorem parseRoutesListH_inv (rs : RouteForest) :
    ∀ (parsed : List HeapRoute) (route : HeapRoute) (h : Heap),
      (∀ c ∈ parsed, c.below h.next) → route.below h.next →
      List.Pairwise HeapRoute.disjointFrom parsed →
      (∀ c ∈ (parseRoutesListH rs parsed route h).1,
          c.below (parseRoutesListH rs parsed route h).2.next) ∧
      List.Pairwise HeapRoute.disjointFrom (parseRoutesListH rs parsed route h).1 ∧
      h.next ≤ (parseRoutesListH rs parsed route h).2.next := by
  cases rs with
  | nil =>
      intro parsed route h hparsed hroute hpw
      rw [parseRoutesListH]
      exact ⟨hparsed, hpw, le_refl _⟩
  | cons r rs =>
      intro parsed route h hparsed hroute hpw
      rw [parseRoutesListH]
      have hone := parseRoutesOneH_inv r parsed route h hparsed hroute hpw
      have := parseRoutesListH_inv rs (parseRoutesOneH r parsed route h).1 route
        (parseRoutesOneH r parsed route h).2
        hone.1 (HeapRoute.below_mono hroute hone.2.2) hone.2.1
      exact ⟨this.1, this.2.1, le_trans hone.2.2 this.2.2⟩

end

theorem parseRoutesH_pairwise_disjoint (routes : RouteForest) :
    List.Pairwise HeapRoute.disjointFrom (parseRoutesH routes).1 := by
  rw [parseRoutesH]
  exact (parseRoutesListH_inv routes [] rootHeapRoute emptyHeap
    (by intro c hc; cases hc) (by decide) List.Pairwise.nil).2.1

theorem pathRef_mem_refs (c : HeapRoute) : c.pathRef ∈ c.refs := by
  rw [HeapRoute.refs]; simp

theorem compRef_mem_refs (c : HeapRoute) : c.compRef ∈ c.refs := by
  rw [HeapRoute.refs]; simp

theorem actRef_mem_refs (c : HeapRoute) : c.actRef ∈ c.refs := by
  rw [HeapRoute.refs]; simp

theorem animRef_mem_refs (c : HeapRoute) : c.animRef ∈ c.refs := by
  rw [HeapRoute.refs]; simp

theorem redRef_mem_refs (c : HeapRoute) : c.redRef ∈ c.refs := by
  rw [HeapRoute.refs]; simp

theorem readChain_writePath {h : Heap} {r : Nat} {d : HeapRoute}
    (hr : r ∉ d.refs) (v : List String) : readChain (writePath h r v) d = readChain h d := by
  have : d.pathRef ≠ r := fun he => hr (he ▸ pathRef_mem_refs d)
  simp [readChain, writePath, upd, this]

theorem readChain_writeComp {h : Heap} {r : Nat} {d : HeapRoute}
    (hr : r ∉ d.refs) (v : List (Option String)) :
    readChain (writeComp h r v) d = readChain h d := by
  have : d.compRef ≠ r := fun he => hr (he ▸ compRef_mem_refs d)
  simp [readChain, writeComp, upd, this]

theorem readChain_writeAct {h : Heap} {r : Nat} {d : HeapRoute}
    (hr : r ∉ d.refs) (v : List (Option (Option String))) :
    readChain (writeAct h r v) d = readChain h d := by
  have : d.actRef ≠ r := fun he => hr (he ▸ actRef_mem_refs d)
  simp [readChain, writeAct, upd, this]

theorem readChain_writeAnim {h : Heap} {r : Nat} {d : HeapRoute}
    (hr : r ∉ d.refs) (v : List (Option AnimPair)) :
    readChain (writeAnim h r v) d = readChain h d := by
  have : d.animRef ≠ r := fun he => hr (he ▸ animRef_mem_refs d)
  simp [readChain, writeAnim, upd, this]

theorem readChain_writeRed {h : Heap} {r : Nat} {d : HeapRoute}
    (hr : r ∉ d.refs) (v : List (Option String)) :
    readChain (writeRed h r v) d = readChain h d := by
  have : d.redRef ≠ r := fun he => hr (he ▸ redRef_mem_refs d)
  simp [readChain, writeRed, upd, this]

theorem DomForest.toList_ofList (l : List DomNode) : (DomForest.ofList l).toList = l := by
  induction l with
  | nil => rfl
  | cons h t ih => rw [DomForest.ofList, DomForest.toList, ih]

theorem DomNode.withChildren_children (a : DomNode) (f : DomForest) :
    (a.withChildren f).children = f := by cases a; rfl

theorem DomNode.withChildren_tag (a : DomNode) (f : DomForest) :
    (a.withChildren f).tag = a.tag := by cases a; rfl

theorem DomNode.withChildren_withChildren (a : DomNode) (f g : DomForest) :
    (a.withChildren f).withChildren g = a.withChildren g := by cases a; rfl

theorem DomNode.withChildren_self (a : DomNode) : a.withChildren a.children = a := by
  cases a; rfl

theorem replaceRouteNodesGo_nil (parent : DomNode) :
    replaceRouteNodesGo [] parent = (parent.withChildren .nil, clearChildrenEv parent.children) :=
  rfl

theorem replaceRouteNodesGo_cons_insert {c : DomNode} {parent : DomNode}
    (rest : List DomNode)
    (hE : parent.children.toList.filter (fun el => el.tag == c.tag) = []) :
    replaceRouteNodesGo (c :: rest) parent =
      (parent.withChildren (.ofList [(replaceRouteNodesGo rest c).1]),
       ((parent.children.toList.filter (fun el => el.tag != c.tag)).map subtreeRemoveEv).flatten
         ++ Ev.inserted c.id :: (showEv c ++ (replaceRouteNodesGo rest c).2)) := by
  rw [replaceRouteNodesGo, hE]

theorem replaceRouteNodesGo_cons_survivor {c : DomNode} {parent : DomNode}
    {survivor : DomNode} {others : List DomNode} (rest : List DomNode)
    (hE : parent.children.toList.filter (fun el => el.tag == c.tag) = survivor :: others) :
    replaceRouteNodesGo (c :: rest) parent =
      (parent.withChildren (.ofList ((replaceRouteNodesGo rest survivor).1 :: others)),
       ((parent.children.toList.filter (fun el => el.tag != c.tag)).map subtreeRemoveEv).flatten
         ++ (replaceRouteNodesGo rest survivor).2) := by
  rw [replaceRouteNodesGo, hE]

theorem replaceRouteNodesGo_fst_tag (chain : List DomNode) (parent : DomNode) :
    (replaceRouteNodesGo chain parent).1.tag = parent.tag := by
  cases chain with
  | nil => rw [replaceRouteNodesGo_nil]; exact parent.withChildren_tag _
  | cons c rest =>
      cases hE : parent.children.toList.filter (fun el => el.tag == c.tag) with
      | nil => rw [replaceRouteNodesGo_cons_insert rest hE]; exact parent.withChildren_tag _
      | cons s ss => rw [replaceRouteNodesGo_cons_survivor rest hE]; exact parent.withChildren_tag _

theorem replaceRouteNodesGo_idem :
    ∀ (chain chain' : List DomNode) (parent : DomNode),
      chain'.map DomNode.tag = chain.map DomNode.tag →
      replaceRouteNodesGo chain' (replaceRouteNodesGo chain parent).1
        = ((replaceRouteNodesGo chain parent).1, []) := by
  intro chain
  induction chain with
  | nil =>
      intro chain' parent h
      have hnil : chain' = [] := List.map_eq_nil_iff.mp h
      subst hnil
      rw [replaceRouteNodesGo_nil, replaceRouteNodesGo_nil,
        DomNode.withChildren_withChildren, DomNode.withChildren_children]
      rfl
  | cons c rest ih =>
      intro chain' parent h
      cases chain' with
      | nil => exact absurd h.symm (by simp)
      | cons c' rest' =>
          simp only [List.map_cons, List.cons.injEq] at h
          obtain ⟨htag, hrest⟩ := h
          cases hE : parent.children.toList.filter (fun el => el.tag == c.tag) with
          | nil =>
              rw [replaceRouteNodesGo_cons_insert rest hE]
              have hntag : (replaceRouteNodesGo rest c).1.tag = c.tag :=
                replaceRouteNodesGo_fst_tag rest c
              have hchild :
                  (parent.withChildren
                      (.ofList [(replaceRouteNodesGo rest c).1])).children.toList
                    = [(replaceRouteNodesGo rest c).1] := by
                rw [DomNode.withChildren_children, DomForest.toList_ofList]
              have hE2 : (parent.withChildren
                    (.ofList [(replaceRouteNodesGo rest c).1])).children.toList.filter
                      (fun el => el.tag == c'.tag)
                  = (replaceRouteNodesGo rest c).1 :: [] := by
                rw [hchild]
                rw [List.filter_eq_self.mpr]
                intro a ha
                rw [List.mem_singleton.mp ha, hntag, htag]
                exact beq_self_eq_true _
              rw [replaceRouteNodesGo_cons_survivor rest' hE2]
              rw [ih rest' c hrest]
              have hEne : (parent.withChildren
                    (.ofList [(replaceRouteNodesGo rest c).1])).children.toList.filter
                      (fun el => el.tag != c'.tag) = [] := by
                rw [hchild]
                apply List.filter_eq_nil_iff.mpr
                intro a ha
                rw [List.mem_singleton.mp ha]
                simp [hntag, htag]
              rw [hEne]
              rw [DomNode.withChildren_withChildren]
              simp
          | cons s ss =>
              rw [replaceRouteNodesGo_cons_survivor rest hE]
              have hstag : (s.tag == c.tag) = true := by
                have : s ∈ parent.children.toList.filter (fun el => el.tag == c.tag) := by
                  rw [hE]; exact List.mem_cons_self _ _
                exact (List.mem_filter.mp this).2
              have hsstag : ∀ b ∈ ss, (b.tag == c.tag) = true := by
                intro b hb
                have : b ∈ parent.children.toList.filter (fun el => el.tag == c.tag) := by
                  rw [hE]; exact List.mem_cons_of_mem _ hb
                exact (List.mem_filter.mp this).2
              have hntag : (replaceRouteNodesGo rest s).1.tag = s.tag :=
                replaceRouteNodesGo_fst_tag rest s
              have hchild :
                  (parent.withChildren
                      (.ofList ((replaceRouteNodesGo rest s).1 :: ss))).children.toList
                    = (replaceRouteNodesGo rest s).1 :: ss := by
                rw [DomNode.withChildren_children, DomForest.toList_ofList]
              have hmemtag : ∀ b ∈ (replaceRouteNodesGo rest s).1 :: ss,
                  (b.tag == c'.tag) = true := by
                intro b hb
                rcases List.mem_cons.mp hb with rfl | hb
                · rw [hntag, htag]; exact hstag
                · rw [htag]; exact hsstag b hb
              have hE2 : (parent.withChildren
                    (.ofList ((replaceRouteNodesGo rest s).1 :: ss))).children.toList.filter
                      (fun el => el.tag == c'.tag)
                  = (replaceRouteNodesGo rest s).1 :: ss := by
                rw [hchild]
                exact List.filter_eq_self.mpr hmemtag
              rw [replaceRouteNodesGo_cons_survivor rest' hE2]
              rw [ih rest' s hrest]
              have hEne : (parent.withChildren
                    (.ofList ((replaceRouteNodesGo rest s).1 :: ss))).children.toList.filter
                      (fun el => el.tag != c'.tag) = [] := by
                rw [hchild]
                apply List.filter_eq_nil_iff.mpr
                intro a ha
                have := hmemtag a ha
                simp only [bne, Bool.not_eq_true, Bool.not_not]
                simp [this]
              rw [hEne]
              rw [DomNode.withChildren_withChildren]
              simp

theorem firstChildSpine_succ_cons {n x : DomNode} {f : DomForest} (k : Nat)
    (h : n.children = .cons x f) : firstChildSpine n (k + 1) = firstChildSpine x k := by
  rw [firstChildSpine, h]

theorem replaceRouteNodesGo_deepest :
    ∀ (chain : List DomNode) (parent : DomNode),
      ∃ d, firstChildSpine (replaceRouteNodesGo chain parent).1 chain.length = some d ∧
        d.children = DomForest.nil := by
  intro chain
  induction chain with
  | nil =>
      intro parent
      exact ⟨parent.withChildren .nil, rfl, parent.withChildren_children _⟩
  | cons c rest ih =>
      intro parent
      cases hE : parent.children.toList.filter (fun el => el.tag == c.tag) with
      | nil =>
          rw [replaceRouteNodesGo_cons_insert rest hE]
          obtain ⟨d, hd, hdc⟩ := ih c
          refine ⟨d, ?_, hdc⟩
          rw [List.length_cons,
            firstChildSpine_succ_cons rest.length (by rw [DomNode.withChildren_children]; rfl)]
          exact hd
      | cons s ss =>
          rw [replaceRouteNodesGo_cons_survivor rest hE]
          obtain ⟨d, hd, hdc⟩ := ih s
          refine ⟨d, ?_, hdc⟩
          rw [List.length_cons,
            firstChildSpine_succ_cons rest.length (by rw [DomNode.withChildren_children]; rfl)]
          exact hd

theorem removedIds_append (a b : List Ev) :
    removedIds (a ++ b) = removedIds a ++ removedIds b := by
  rw [removedIds, removedIds, removedIds, List.filterMap_append]

theorem removedIds_removeRouteElement (n : DomNode) :
    removedIds (removeRouteElement n) = [n.id] := by
  cases hn : n.anim <;> simp [removeRouteElement, hn, removedIds, List.filterMap]

mutual

theorem removedIds_subtree (n : DomNode) :
    removedIds (subtreeRemoveEv n) = postorderIdsNode n := by
  cases n with
  | mk i t a cs =>
      rw [subtreeRemoveEv, postorderIdsNode, removedIds_append, removedIds_clearChildren cs,
        removedIds_removeRouteElement]
      rfl

theorem removedIds_clearChildren (f : DomForest) :
    removedIds (clearChildrenEv f) = postorderIdsForest f := by
  cases f with
  | nil => rfl
  | cons c rest =>
      rw [clearChildrenEv, postorderIdsForest, removedIds_append, removedIds_subtree c,
        removedIds_clearChildren rest]

end

mutual

theorem playShow_not_mem_subtree (n : DomNode) (i : Nat) :
    Ev.playShow i ∉ subtreeRemoveEv n := by
  cases n with
  | mk ident t a cs =>
      rw [subtreeRemoveEv]
      intro h
      rcases List.mem_append.mp h with h1 | h2
      · exact playShow_not_mem_clear cs i h1
      · rcases a with _ | p <;> simp [removeRouteElement, DomNode.anim, DomNode.id] at h2

theorem playShow_not_mem_clear (f : DomForest) (i : Nat) :
    Ev.playShow i ∉ clearChildrenEv f := by
  cases f with
  | nil => simp [clearChildrenEv]
  | cons c rest =>
      rw [clearChildrenEv]
      intro h
      rcases List.mem_append.mp h with h1 | h2
      · exact playShow_not_mem_subtree c i h1
      · exact playShow_not_mem_clear rest i h2

end

theorem playShow_not_mem_flatten_removals (l : List DomNode) (i : Nat) :
    Ev.playShow i ∉ (l.map subtreeRemoveEv).flatten := by
  intro h
  rcases List.mem_flatten.mp h with ⟨evs, hevs, hmem⟩
  rcases List.mem_map.mp hevs with ⟨n, _, rfl⟩
  exact playShow_not_mem_subtree n i hmem

theorem sai_of_no_show {pfx evs : List Ev} (h : ∀ i : Nat, Ev.playShow i ∉ evs) :
    showAfterInsert pfx evs := by
  intro n i hn
  exact absurd (List.mem_iff_getElem?.mpr ⟨n, hn⟩) (h i)

theorem sai_append {pfx as bs : List Ev} (ha : showAfterInsert pfx as)
    (hb : showAfterInsert (pfx ++ as) bs) : showAfterInsert pfx (as ++ bs) := by
  intro n i hn
  by_cases hlt : n < as.length
  · rw [List.getElem?_append_left hlt] at hn
    rcases ha n i hn with h | ⟨m, hm, hms⟩
    · exact Or.inl h
    · exact Or.inr ⟨m, hm, by rw [List.getElem?_append_left (lt_trans hm hlt)]; exact hms⟩
  · push_neg at hlt
    rw [List.getElem?_append_right hlt] at hn
    rcases hb (n - as.length) i hn with h | ⟨m, hm, hms⟩
    · rcases List.mem_append.mp h with h | h
      · exact Or.inl h
      · rcases List.mem_iff_getElem?.mp h with ⟨m, hm⟩
        have hmlt : m < as.length := by
          rcases List.getElem?_eq_some.mp hm with ⟨hlen, -⟩
          exact hlen
        refine Or.inr ⟨m, by omega, ?_⟩
        rw [List.getElem?_append_left hmlt]
        exact hm
    · refine Or.inr ⟨as.length + m, by omega, ?_⟩
      rw [List.getElem?_append_right (by omega)]
      have hme : as.length + m - as.length = m := by omega
      rw [hme]
      exact hms

theorem sai_cons_not_show {pfx : List Ev} {e : Ev} {evs : List Ev}
    (he : ∀ i : Nat, e ≠ Ev.playShow i) (h : showAfterInsert (pfx ++ [e]) evs) :
    showAfterInsert pfx (e :: evs) := by
  intro n i hn
  cases n with
  | zero =>
      exact absurd (by simpa using hn) (he i)
  | succ m =>
      rcases h m i (by simpa using hn) with hmem | ⟨k, hk, hks⟩
      · rcases List.mem_append.mp hmem with hmem | hmem
        · exact Or.inl hmem
        · refine Or.inr ⟨0, by omega, ?_⟩
          rw [List.mem_singleton.mp hmem]
          simp
      · exact Or.inr ⟨k + 1, by omega, by simpa using hks⟩

theorem sai_cons_show {pfx : List Ev} {i : Nat} {evs : List Ev}
    (hmem : Ev.inserted i ∈ pfx) (h : showAfterInsert (pfx ++ [Ev.playShow i]) evs) :
    showAfterInsert pfx (Ev.playShow i :: evs) := by
  intro n j hn
  cases n with
  | zero =>
      have : i = j := by simpa using hn
      exact Or.inl (this ▸ hmem)
  | succ m =>
      rcases h m j (by simpa using hn) with hm | ⟨k, hk, hks⟩
      · rcases List.mem_append.mp hm with hm | hm
        · exact Or.inl hm
        · exact absurd (List.mem_singleton.mp hm) (by simp)
      · exact Or.inr ⟨k + 1, by omega, by simpa using hks⟩

theorem sai_replaceRouteNodesGo :
    ∀ (chain : List DomNode) (parent : DomNode) (pfx : List Ev),
      showAfterInsert pfx (replaceRouteNodesGo chain parent).2 := by
  intro chain
  induction chain with
  | nil =>
      intro parent pfx
      rw [replaceRouteNodesGo_nil]
      exact sai_of_no_show (fun i => playShow_not_mem_clear _ i)
  | cons c rest ih =>
      intro parent pfx
      cases hE : parent.children.toList.filter (fun el => el.tag == c.tag) with
      | cons s ss =>
          rw [replaceRouteNodesGo_cons_survivor rest hE]
          exact sai_append (sai_of_no_show (fun i => playShow_not_mem_flatten_removals _ i))
            (ih s _)
      | nil =>
          rw [replaceRouteNodesGo_cons_insert rest hE]
          apply sai_append (sai_of_no_show (fun i => playShow_not_mem_flatten_removals _ i))
          apply sai_cons_not_show (by intro i h; cases h)
          cases hanim : c.anim with
          | none =>
              rw [showEv, hanim]
              simpa using ih c _
          | some a =>
              rw [showEv, hanim]
              show showAfterInsert _ (Ev.stopAnim c.id :: (Ev.playShow c.id :: (replaceRouteNodesGo rest c).2))
              apply sai_cons_not_show (by intro i h; cases h)
              apply sai_cons_show (by simp)
              exact ih c _

theorem count_playShow_removals (l : List DomNode) (i : Nat) :
    ((l.map subtreeRemoveEv).flatten).count (Ev.playShow i) = 0 :=
  List.count_eq_zero.mpr (playShow_not_mem_flatten_removals l i)

theorem count_playShow_clear (f : DomForest) (i : Nat) :
    (clearChildrenEv f).count (Ev.playShow i) = 0 :=
  List.count_eq_zero.mpr (playShow_not_mem_clear f i)

theorem count_playShow_le :
    ∀ (chain : List DomNode) (parent : DomNode) (i : Nat),
      (replaceRouteNodesGo chain parent).2.count (Ev.playShow i)
        ≤ (chain.map DomNode.id).count i := by
  intro chain
  induction chain with
  | nil =>
      intro parent i
      rw [replaceRouteNodesGo_nil]
      rw [count_playShow_clear]
      exact Nat.zero_le _
  | cons c rest ih =>
      intro parent i
      cases hE : parent.children.toList.filter (fun el => el.tag == c.tag) with
      | cons s ss =>
          rw [replaceRouteNodesGo_cons_survivor rest hE]
          rw [List.count_append, count_playShow_removals, List.map_cons, List.count_cons]
          have hrest := ih s i
          by_cases hci : c.id = i
          · have hcb : (c.id == i) = true := by simp [hci]
            rw [hcb]
            simp only [if_true]
            omega
          · have hcb : (c.id == i) = false := by simp [hci]
            rw [hcb]
            simp only [Bool.false_eq_true, if_false]
            omega
      | nil =>
          rw [replaceRouteNodesGo_cons_insert rest hE]
          rw [List.count_append, count_playShow_removals, List.count_cons, List.count_append]
          have hins : (if (Ev.inserted c.id == Ev.playShow i) = true then 1 else 0) = 0 := by
            simp
          rw [hins]
          have hrest := ih c i
          rw [List.map_cons, List.count_cons]
          by_cases hci : c.id = i
          · have hcb : (c.id == i) = true := by simp [hci]
            rw [hcb]
            simp only [if_true]
            have hshow : (showEv c).count (Ev.playShow i) ≤ 1 := by
              cases hanim : c.anim with
              | none => rw [showEv, hanim]; simp
              | some a =>
                  rw [showEv, hanim]
                  subst hci
                  simp [List.count_cons, List.count_nil]
            omega
          · have hcb : (c.id == i) = false := by simp [hci]
            rw [hcb]
            simp only [Bool.false_eq_true, if_false]
            have hshow : (showEv c).count (Ev.playShow i) = 0 := by
              cases hanim : c.anim with
              | none => rw [showEv, hanim]; simp
              | some a =>
                  rw [showEv, hanim]
                  simp [List.count_cons, List.count_nil, hci]
            omega

theorem count_playShow_insert_once {c : DomNode} {rest : List DomNode} {parent : DomNode}
    (hmis : ∀ b ∈ parent.children.toList, b.tag ≠ c.tag)
    (hanim : c.anim.isSome) (hid : c.id ∉ rest.map DomNode.id) :
    (replaceRouteNodesGo (c :: rest) parent).2.count (Ev.playShow c.id) = 1 := by
  have hE : parent.children.toList.filter (fun el => el.tag == c.tag) = [] := by
    apply List.filter_eq_nil_iff.mpr
    intro b hb
    simp [hmis b hb]
  rw [replaceRouteNodesGo_cons_insert rest hE]
  rw [List.count_append, count_playShow_removals, List.count_cons, List.count_append]
  have hins : (if (Ev.inserted c.id == Ev.playShow c.id) = true then 1 else 0) = 0 := by simp
  rw [hins]
  have hshow : (showEv c).count (Ev.playShow c.id) = 1 := by
    rcases Option.isSome_iff_exists.mp hanim with ⟨a, ha⟩
    rw [showEv, ha]
    simp [List.count_cons, List.count_nil]
  have hzero : (replaceRouteNodesGo rest c).2.count (Ev.playShow c.id) = 0 := by
    have := count_playShow_le rest c c.id
    rw [List.count_eq_zero.mpr hid] at this
    omega
  omega

/-- C2: reconciliation tears mismatched subtrees down deepest-first
(the detach order of any animated subtree removal is exactly post-order:
each descendant is detached before its own parent), completes every
mismatched child's teardown — exit animations included — before the
replacement element is inserted at that depth, only plays an enter
animation for an element already inserted into the DOM (every enter
event is preceded by that element's insertion event), and plays the
replacement's enter animation exactly once. -/
theorem reconcile_exit_before_enter :
    (∀ n : DomNode, removedIds (subtreeRemoveEv n) = postorderIdsNode n) ∧
    (∀ (c : DomNode) (rest : List DomNode) (parent : DomNode),
        (∀ b ∈ parent.children.toList, b.tag ≠ c.tag) →
        (replaceRouteNodesGo (c :: rest) parent).2
          = (parent.children.toList.map subtreeRemoveEv).flatten
              ++ Ev.inserted c.id :: (showEv c ++ (replaceRouteNodesGo rest c).2)) ∧
    (∀ (chain : List DomNode) (parent : DomNode),
        showAfterInsert [] (replaceRouteNodesGo chain parent).2) ∧
    (∀ (chain : List DomNode) (parent : DomNode) (i : Nat),
        (replaceRouteNodesGo chain parent).2.count (Ev.playShow i)
          ≤ (chain.map DomNode.id).count i) ∧
    (∀ (c : DomNode) (rest : List DomNode) (parent : DomNode),
        (∀ b ∈ parent.children.toList, b.tag ≠ c.tag) → c.anim.isSome →
        c.id ∉ rest.map DomNode.id →
        (replaceRouteNodesGo (c :: rest) parent).2.count (Ev.playShow c.id) = 1) := by
  refine ⟨removedIds_subtree, ?_,
    fun chain parent => sai_replaceRouteNodesGo chain parent [],
    count_playShow_le,
    fun c rest parent h1 h2 h3 => count_playShow_insert_once h1 h2 h3⟩
  intro c rest parent hmis
  have hE : parent.children.toList.filter (fun el => el.tag == c.tag) = [] := by
    apply List.filter_eq_nil_iff.mpr
    intro b hb
    simp [hmis b hb]
  have hNE : parent.children.toList.filter (fun el => el.tag != c.tag)
      = parent.children.toList := by
    apply List.filter_eq_self.mpr
    intro b hb
    exact bne_iff_ne.mpr (hmis b hb)
  rw [replaceRouteNodesGo_cons_insert rest hE, hNE]

/-- Witness for C2 at the spec's example: mounted chain segment A with
child B, desired element C at that depth, animations attached
everywhere.  B's full animated teardown precedes C's insertion, and C's
enter animation plays exactly once. -/
theorem reconcile_exit_before_enter_witness :
    (replaceRouteNodesGo [nodeC] nodeA).2
      = (nodeA.children.toList.map subtreeRemoveEv).flatten
          ++ Ev.inserted nodeC.id :: (showEv nodeC ++ (replaceRouteNodesGo [] nodeC).2) ∧
    (replaceRouteNodesGo [nodeC] nodeA).2.count (Ev.playShow nodeC.id) = 1 :=
  ⟨reconcile_exit_before_enter.2.1 nodeC [] nodeA (by decide),
   reconcile_exit_before_enter.2.2.2.2 nodeC [] nodeA (by decide) (by decide) (by decide)⟩

/-- C10: reconciliation recurses one level past the chain's deepest
element and clears all of that element's child nodes, so after every
completed reconciliation the mounted element at the chain's deepest
depth (reached by first-child steps from the outlet) exists and has no
child nodes. -/
theorem reconcile_deepest_element_childless (componentChain : List DomNode) (outlet : DomNode) :
    ∃ d, firstChildSpine (replaceRouteNodes componentChain outlet 0).1 componentChain.length
        = some d ∧
      d.children = DomForest.nil := by
  rw [replaceRouteNodes, List.drop_zero]
  exact replaceRouteNodesGo_deepest componentChain outlet

/-- C4: distinct chains of a flattened table never share an underlying
sequence array (their five store references are pairwise disjoint), so
mutating any sequence array owned by one chain leaves every other
chain's dereferenced sequences unchanged. -/
theorem parseRoutesH_chains_independent (routes : RouteForest)
    (i j : Nat) (hi : i < (parseRoutesH routes).1.length)
    (hj : j < (parseRoutesH routes).1.length) (hij : i ≠ j) :
    HeapRoute.disjointFrom ((parseRoutesH routes).1[i]) ((parseRoutesH routes).1[j]) ∧
    ∀ r ∈ ((parseRoutesH routes).1[i]).refs,
      (∀ v, readChain (writePath (parseRoutesH routes).2 r v) ((parseRoutesH routes).1[j])
          = readChain (parseRoutesH routes).2 ((parseRoutesH routes).1[j])) ∧
      (∀ v, readChain (writeComp (parseRoutesH routes).2 r v) ((parseRoutesH routes).1[j])
          = readChain (parseRoutesH routes).2 ((parseRoutesH routes).1[j])) ∧
      (∀ v, readChain (writeAct (parseRoutesH routes).2 r v) ((parseRoutesH routes).1[j])
          = readChain (parseRoutesH routes).2 ((parseRoutesH routes).1[j])) ∧
      (∀ v, readChain (writeAnim (parseRoutesH routes).2 r v) ((parseRoutesH routes).1[j])
          = readChain (parseRoutesH routes).2 ((parseRoutesH routes).1[j])) ∧
      (∀ v, readChain (writeRed (parseRoutesH routes).2 r v) ((parseRoutesH routes).1[j])
          = readChain (parseRoutesH routes).2 ((parseRoutesH routes).1[j])) := by
  have hpw := parseRoutesH_pairwise_disjoint routes
  rw [List.pairwise_iff_getElem] at hpw
  have hdisj : HeapRoute.disjointFrom ((parseRoutesH routes).1[i]) ((parseRoutesH routes).1[j]) := by
    rcases Nat.lt_or_ge i j with hlt | hge
    · exact hpw i j hi hj hlt
    · exact HeapRoute.disjointFrom_symm (hpw j i hj hi (by omega))
  refine ⟨hdisj, ?_⟩
  intro r hr
  have hnot : r ∉ ((parseRoutesH routes).1[j]).refs := hdisj r hr
  exact ⟨fun v => readChain_writePath hnot v, fun v => readChain_writeComp hnot v,
         fun v => readChain_writeAct hnot v, fun v => readChain_writeAnim hnot v,
         fun v => readChain_writeRed hnot v⟩

/-- Witness for C4 at the spec's example: flatten a tree with root a
and children b, c; mutating the b-chain's path array (reference held by
chain index 1) leaves the c-chain (index 2) dereferencing unchanged, its
path still a then c. -/
theorem parseRoutesH_chains_independent_witness :
    readChain
        (writePath (parseRoutesH abRoutes).2
          (((parseRoutesH abRoutes).1.get ⟨1, by decide⟩).pathRef) ["mutated"])
        ((parseRoutesH abRoutes).1.get ⟨2, by decide⟩)
      = readChain (parseRoutesH abRoutes).2 ((parseRoutesH abRoutes).1.get ⟨2, by decide⟩) ∧
    (readChain (parseRoutesH abRoutes).2 ((parseRoutesH abRoutes).1.get ⟨2, by decide⟩)).path
      = ["a", "c"] :=
  ⟨(((parseRoutesH_chains_independent abRoutes 1 2 (by decide) (by decide) (by decide)).2
      (((parseRoutesH abRoutes).1.get ⟨1, by decide⟩).pathRef) (by decide)).1) ["mutated"],
   by decide⟩

/-- C3: flattening (`parseRoutes`) produces exactly one chain per
declared node — internal nodes included — in pre-order: the produced
chains' path sequences are exactly the pre-order root-to-node path
lists; every chain's path sequence has length equal to the declaring
node's depth plus one; and in every produced chain the component,
action, animation and redirect sequences have the same length as the
path sequence. -/
theorem parseRoutes_one_chain_per_node_preorder (routes : RouteForest) :
    (parseRoutes routes).map (·.path) = prePathsForest [] routes ∧
    (parseRoutes routes).map (·.path.length) = (preDepthsForest 0 routes).map (· + 1) ∧
    ∀ c ∈ parseRoutes routes, c.balanced := by
  have hempty : emptyInternalRoute.path = [] := rfl
  refine ⟨?_, ?_, ?_⟩
  · rw [parseRoutes, parseRoutesList_eq_chains]
    simpa [hempty] using chainsOfForest_paths routes emptyInternalRoute
  · rw [parseRoutes, parseRoutesList_eq_chains]
    simpa [hempty] using chainsOfForest_depths routes emptyInternalRoute
  · rw [parseRoutes, parseRoutesList_eq_chains]
    intro c hc
    simp only [List.nil_append] at hc
    exact chainsOfForest_balanced routes emptyInternalRoute (by decide) c hc

/-- C5: the matcher returns the first chain of the stored table whose
slash-joined pattern matches the candidate path (declaration order wins
over specificity: with a catch-all declared before a literal sibling,
the catch-all chain is the match for the literal's path), and when no
chain matches it returns nothing rather than failing. -/
theorem getMatchingRoute_first_match_or_none
    (test : String → String → Bool) (routes : List InternalRoute) (route : String) :
    (∀ c, getMatchingRoute test routes route = some c ↔
        ∃ pre post, routes = pre ++ c :: post ∧
          test (String.intercalate "/" c.path) route = true ∧
          ∀ p ∈ pre, test (String.intercalate "/" p.path) route = false) ∧
    (getMatchingRoute test routes route = none ↔
        ∀ c ∈ routes, test (String.intercalate "/" c.path) route = false) ∧
    getMatchingRoute urlPatternTest wildTable "/users"
      = some ⟨["*"], none, [none], [none], [none], [none]⟩ := by
  refine ⟨?_, ?_, by decide⟩
  · intro c
    rw [getMatchingRoute]
    exact find?_first_characterization _ routes c
  · rw [getMatchingRoute]
    exact find?_none_characterization _ routes

theorem navigateAux_nomatch {routes : List InternalRoute} {test : String → String → Bool}
    {route : String} {st : RouterSt} (fuel : Nat)
    (hm : getMatchingRoute test routes route = none) :
    navigateAux routes test (fuel + 1) route st = ⟨.ok none, st, [], [], 0⟩ := by
  rw [navigateAux, hm]

theorem navigateAux_redirect_guard {routes : List InternalRoute} {test : String → String → Bool}
    {route : String} {st : RouterSt} {c : InternalRoute} {target : String} (fuel : Nat)
    (hm : getMatchingRoute test routes route = some c)
    (hr : whereToRedirect c = some target)
    (hg : st.redirectionCount > MAX_REDIRECTIONS) :
    navigateAux routes test (fuel + 1) route st
      = ⟨.error circularMsg, { st with nextId := st.nextId + c.component.length }, [], [], 0⟩ := by
  rw [navigateAux, hm]
  dsimp only
  rw [hr]
  dsimp only
  rw [if_pos hg]

theorem navigateAux_redirect_hop {routes : List InternalRoute} {test : String → String → Bool}
    {route : String} {st : RouterSt} {c : InternalRoute} {target : String} (fuel : Nat)
    (hm : getMatchingRoute test routes route = some c)
    (hr : whereToRedirect c = some target)
    (hg : ¬ st.redirectionCount > MAX_REDIRECTIONS) :
    navigateAux routes test (fuel + 1) route st
      = (let inner := navigateAux routes test fuel target
            { st with nextId := st.nextId + c.component.length,
                      redirectionCount := st.redirectionCount + 1 };
         ⟨.ok none, inner.st, inner.events,
          inner.unhandled ++ (match inner.result with | .error e => [e] | .ok _ => []),
          inner.hops + 1⟩) := by
  rw [navigateAux, hm]
  dsimp only
  rw [hr]
  dsimp only
  rw [if_neg hg]

theorem navigateAux_commit {routes : List InternalRoute} {test : String → String → Bool}
    {route : String} {st : RouterSt} {c : InternalRoute} (fuel : Nat)
    (hm : getMatchingRoute test routes route = some c)
    (hr : whereToRedirect c = none) :
    navigateAux routes test (fuel + 1) route st
      = (let reconciled := replaceRouteNodes (materialize c st.nextId) st.outlet 0;
         ⟨.ok (some route),
          { redirectionCount := 0, historyRoute := some route, outlet := reconciled.1,
            nextId := st.nextId + c.component.length },
          reconciled.2, [], 0⟩) := by
  rw [navigateAux, hm]
  dsimp only
  rw [hr]

theorem redirectStep_eq {routes : List InternalRoute} {test : String → String → Bool}
    {r : String} {c : InternalRoute} {target : String}
    (hm : getMatchingRoute test routes r = some c)
    (hr : whereToRedirect c = some target) :
    redirectStep routes test r = target := by
  rw [redirectStep, hm]
  dsimp only
  rw [hr]

theorem navigateAux_loop (routes : List InternalRoute) (test : String → String → Bool)
    (route₀ : String) (h : RedirectCycleFrom routes test route₀) :
    ∀ (k : Nat) (st : RouterSt) (j : Nat),
      st.redirectionCount + k = MAX_REDIRECTIONS + 1 →
      (navigateAux routes test (k + 1) (redirectOrbit routes test route₀ j) st).hops = k ∧
      (navigateAux routes test (k + 1) (redirectOrbit routes test route₀ j) st).events = [] ∧
      (navigateAux routes test (k + 1) (redirectOrbit routes test route₀ j) st).st.outlet
        = st.outlet ∧
      ((k = 0 ∧
          (navigateAux routes test (k + 1) (redirectOrbit routes test route₀ j) st).result
            = .error circularMsg ∧
          (navigateAux routes test (k + 1) (redirectOrbit routes test route₀ j) st).unhandled
            = []) ∨
        (0 < k ∧
          (navigateAux routes test (k + 1) (redirectOrbit routes test route₀ j) st).result
            = .ok none ∧
          (navigateAux routes test (k + 1) (redirectOrbit routes test route₀ j) st).unhandled
            = [circularMsg])) := by
  intro k
  induction k with
  | zero =>
      intro st j hcnt
      obtain ⟨c, target, hmatch, hred⟩ := h j
      rw [navigateAux_redirect_guard 0 hmatch hred (by rw [MAX_REDIRECTIONS] at hcnt ⊢; omega)]
      exact ⟨rfl, rfl, rfl, Or.inl ⟨rfl, rfl, rfl⟩⟩
  | succ k ih =>
      intro st j hcnt
      obtain ⟨c, target, hmatch, hred⟩ := h j
      rw [navigateAux_redirect_hop (k + 1) hmatch hred
        (by rw [MAX_REDIRECTIONS] at hcnt ⊢; omega)]
      have hnext : redirectOrbit routes test route₀ (j + 1) = target := by
        rw [redirectOrbit, redirectStep_eq hmatch hred]
      have hinner := ih { st with nextId := st.nextId + c.component.length,
                                  redirectionCount := st.redirectionCount + 1 } (j + 1)
        (by show st.redirectionCount + 1 + k = MAX_REDIRECTIONS + 1; omega)
      rw [hnext] at hinner
      obtain ⟨hhops, hevs, hout, hrest⟩ := hinner
      refine ⟨by simpa using hhops, by simpa using hevs, by simpa using hout,
        Or.inr ⟨by omega, rfl, ?_⟩⟩
      rcases hrest with ⟨hk0, hres, hunh⟩ | ⟨hkpos, hres, hunh⟩ <;>
        · show (navigateAux _ _ (k + 1) _ _).unhandled ++ _ = _
          rw [hres, hunh]
          rfl

theorem selfLoopTable_redirect_cycle : RedirectCycleFrom selfLoopTable urlPatternTest "/x" := by
  have horb : ∀ k : Nat, redirectOrbit selfLoopTable urlPatternTest "/x" k = "/x" := by
    intro k
    induction k with
    | zero => rfl
    | succ k ih =>
        rw [redirectOrbit, ih]
        decide
  intro k
  rw [horb k]
  exact ⟨⟨["x"], none, [none], [none], [none], [some "/x"]⟩, "/x", by decide, by decide⟩

/-- Counterexample to C1 as stated: on the self-redirecting route table
the fatal circular-redirection error is raised only after 201 redirect
hops (201 recursive navigate invocations are spawned; the 201st rejects
at its own guard check), not after exactly 200. -/
theorem navigate_loop_hops_ne_200 :
    (navigate loopTable urlPatternTest "/x" initialSt).hops ≠ 200 ∧
    (navigate loopTable urlPatternTest "/x" initialSt).hops = 201 ∧
    (navigate loopTable urlPatternTest "/x" initialSt).unhandled = [circularMsg] :=
  ⟨by decide, by decide, by decide⟩

/-- C1 amended: for every route table containing a redirect cycle
reachable from the navigated path (every path in the navigated path's
redirect orbit matches a chain whose own deepest redirect entry is
defined — nothing is assumed about paths the navigation never visits),
one outer navigation starting with counter 0 performs exactly
`MAX_REDIRECTIONS + 1 = 201` redirect hops and then the
circular-redirection error is raised — the guard faults only when the
counter, which the outer invocation also increments, strictly exceeds
200 — and the error lands in the unhandled set of the un-awaited
recursive call while the outer promise resolves.  Bounded on both
sides: never before hop 201 and never after. -/
theorem navigate_redirect_loop_faults_after_201_hops
    (routes : List InternalRoute) (test : String → String → Bool) (route : String)
    (h : RedirectCycleFrom routes test route) (st : RouterSt)
    (hcnt : st.redirectionCount = 0) :
    (navigate routes test route st).hops = MAX_REDIRECTIONS + 1 ∧
    (navigate routes test route st).unhandled = [circularMsg] ∧
    (navigate routes test route st).events = [] := by
  have hfe : MAX_REDIRECTIONS + 2 - st.redirectionCount = (MAX_REDIRECTIONS + 1) + 1 := by
    rw [hcnt]
    omega
  have hloop := navigateAux_loop routes test route h (MAX_REDIRECTIONS + 1) st 0 (by omega)
  rw [show redirectOrbit routes test route 0 = route from rfl] at hloop
  rw [navigate, hfe]
  obtain ⟨h1, h2, h3, h4⟩ := hloop
  rcases h4 with ⟨habs, -, -⟩ | ⟨-, hres, hunh⟩
  · exact absurd habs (by rw [MAX_REDIRECTIONS]; omega)
  · exact ⟨h1, hunh, h2⟩

/-- Witness for the amended C1 at the literal self-redirect fixture
(node x redirecting to its own path /x). -/
theorem navigate_redirect_loop_faults_after_201_hops_witness :
    (navigate selfLoopTable urlPatternTest "/x" initialSt).hops = MAX_REDIRECTIONS + 1 ∧
    (navigate selfLoopTable urlPatternTest "/x" initialSt).unhandled = [circularMsg] ∧
    (navigate selfLoopTable urlPatternTest "/x" initialSt).events = [] :=
  navigate_redirect_loop_faults_after_201_hops selfLoopTable urlPatternTest "/x"
    selfLoopTable_redirect_cycle initialSt rfl

/-- Counterexample to C7 as stated: on the self-redirecting route table
the promise returned to the external caller RESOLVES (with undefined)
at the first redirect hop; the circular-redirection error never reaches
the caller — it is left as an unhandled rejection of the un-awaited
internal recursive call. -/
theorem navigate_circular_error_resolves_caller :
    (navigate loopTable urlPatternTest "/x" initialSt).result = Except.ok none ∧
    (navigate loopTable urlPatternTest "/x" initialSt).unhandled = [circularMsg] :=
  ⟨by decide, by decide⟩

/-- C7 amended: for every navigation whose redirect orbit keeps
redirecting past the threshold (a redirect cycle reachable from the
navigated path; nothing is assumed about unvisited paths), the
circular-redirection error is thrown inside the internal recursive
navigate invocation whose counter exceeds the guard (that invocation's
promise rejects), but because redirect recursion is spawned without
being awaited, the external caller's promise resolves with undefined
and the error surfaces only as an unhandled rejection. -/
theorem navigate_circular_error_internal_rejection
    (routes : List InternalRoute) (test : String → String → Bool) (route : String)
    (h : RedirectCycleFrom routes test route) (st : RouterSt)
    (hcnt : st.redirectionCount = 0) :
    (navigate routes test route st).result = Except.ok none ∧
    (navigate routes test route st).unhandled = [circularMsg] ∧
    (∀ (fuel : Nat) (st' : RouterSt), st'.redirectionCount = MAX_REDIRECTIONS + 1 →
      (navigateAux routes test (fuel + 1) route st').result = Except.error circularMsg) := by
  have hfe : MAX_REDIRECTIONS + 2 - st.redirectionCount = (MAX_REDIRECTIONS + 1) + 1 := by
    rw [hcnt]
    omega
  have hloop := navigateAux_loop routes test route h (MAX_REDIRECTIONS + 1) st 0 (by omega)
  rw [show redirectOrbit routes test route 0 = route from rfl] at hloop
  obtain ⟨-, -, -, h4⟩ := hloop
  have hinner : ∀ (fuel : Nat) (st' : RouterSt), st'.redirectionCount = MAX_REDIRECTIONS + 1 →
      (navigateAux routes test (fuel + 1) route st').result = Except.error circularMsg := by
    intro fuel st' hc'
    obtain ⟨c, target, hmatch, hred⟩ := h 0
    have hmatch' : getMatchingRoute test routes route = some c := hmatch
    rw [navigateAux_redirect_guard fuel hmatch' hred (by omega)]
  rcases h4 with ⟨habs, -, -⟩ | ⟨-, hres, hunh⟩
  · exact absurd habs (by rw [MAX_REDIRECTIONS]; omega)
  · rw [navigate, hfe]
    exact ⟨hres, hunh, hinner⟩

/-- Witness for the amended C7 at the literal self-redirect fixture. -/
theorem navigate_circular_error_internal_rejection_witness :
    (navigate selfLoopTable urlPatternTest "/x" initialSt).result = Except.ok none ∧
    (navigate selfLoopTable urlPatternTest "/x" initialSt).unhandled = [circularMsg] ∧
    (∀ (fuel : Nat) (st' : RouterSt), st'.redirectionCount = MAX_REDIRECTIONS + 1 →
      (navigateAux selfLoopTable urlPatternTest (fuel + 1) "/x" st').result
        = Except.error circularMsg) :=
  navigate_circular_error_internal_rejection selfLoopTable urlPatternTest "/x"
    selfLoopTable_redirect_cycle initialSt rfl

/-- C6: for a navigation whose matched chain has a defined redirect
entry at its own (deepest) index, with the guard not yet faulting,
navigate mounts none of the view elements materialized for it — its DOM
effect trace and resulting outlet are exactly those of the recursive
navigation spawned on the redirect target with the counter incremented —
and resolves its own promise with undefined; whereas a chain whose own
deepest redirect entry is undefined (even when an ancestor entry is
defined) triggers no redirect: zero hops and the navigated route itself
is committed to history. -/
theorem navigate_redirect_uses_deepest_entry_only
    (routes : List InternalRoute) (test : String → String → Bool) (fuel : Nat)
    (route : String) (st : RouterSt) (c : InternalRoute)
    (hmatch : getMatchingRoute test routes route = some c) :
    (∀ target, whereToRedirect c = some target →
        st.redirectionCount ≤ MAX_REDIRECTIONS →
        (navigateAux routes test (fuel + 1) route st).events
            = (navigateAux routes test fuel target
                { st with nextId := st.nextId + c.component.length,
                          redirectionCount := st.redirectionCount + 1 }).events ∧
        (navigateAux routes test (fuel + 1) route st).st.outlet
            = (navigateAux routes test fuel target
                { st with nextId := st.nextId + c.component.length,
                          redirectionCount := st.redirectionCount + 1 }).st.outlet ∧
        (navigateAux routes test (fuel + 1) route st).result = Except.ok none ∧
        (navigateAux routes test (fuel + 1) route st).hops
            = (navigateAux routes test fuel target
                { st with nextId := st.nextId + c.component.length,
                          redirectionCount := st.redirectionCount + 1 }).hops + 1) ∧
    (whereToRedirect c = none →
        (navigateAux routes test (fuel + 1) route st).hops = 0 ∧
        (navigateAux routes test (fuel + 1) route st).st.historyRoute = some route ∧
        (navigateAux routes test (fuel + 1) route st).result = Except.ok (some route)) := by
  constructor
  · intro target hred hguard
    rw [navigateAux_redirect_hop fuel hmatch hred (by omega)]
    exact ⟨rfl, rfl, rfl, rfl⟩
  · intro hred
    rw [navigateAux_commit fuel hmatch hred]
    exact ⟨rfl, rfl, rfl⟩

/-- Witness for C6: the away chain redirects (all observables delegate
to the recursive navigation of home), and the p/q chain — whose only
defined redirect entry is the ancestor's — commits /p/q with zero
hops. -/
theorem navigate_redirect_uses_deepest_entry_only_witness :
    ((navigateAux homeTable urlPatternTest 202 "/away" initialSt).events
        = (navigateAux homeTable urlPatternTest 201 "home" ⟨1, none, outlet0, 2⟩).events ∧
      (navigateAux homeTable urlPatternTest 202 "/away" initialSt).st.outlet
        = (navigateAux homeTable urlPatternTest 201 "home" ⟨1, none, outlet0, 2⟩).st.outlet ∧
      (navigateAux homeTable urlPatternTest 202 "/away" initialSt).result = Except.ok none ∧
      (navigateAux homeTable urlPatternTest 202 "/away" initialSt).hops
        = (navigateAux homeTable urlPatternTest 201 "home" ⟨1, none, outlet0, 2⟩).hops + 1) ∧
    ((navigateAux nestedTable urlPatternTest 202 "/p/q" initialSt).hops = 0 ∧
      (navigateAux nestedTable urlPatternTest 202 "/p/q" initialSt).st.historyRoute
        = some "/p/q" ∧
      (navigateAux nestedTable urlPatternTest 202 "/p/q" initialSt).result
        = Except.ok (some "/p/q")) :=
  ⟨(navigate_redirect_uses_deepest_entry_only homeTable urlPatternTest 201 "/away" initialSt
      ⟨["away"], none, [none], [none], [none], [some "home"]⟩ (by decide)).1
      "home" (by decide) (by decide),
   (navigate_redirect_uses_deepest_entry_only nestedTable urlPatternTest 201 "/p/q" initialSt
      ⟨["p", "q"], none, [none, none], [none, none], [none, none], [some "/x", none]⟩
      (by decide)).2 (by decide)⟩

/-- C8: navigating /away on the home/away table mounts exactly one
home-view element under the outlet, the resolved path reported to
history is home, the redirect counter is back at 0 after success,
nothing is left unhandled, exactly one redirect hop happened, and the
internal recursive navigation resolves with the path home. -/
theorem navigate_away_mounts_home :
    (navigate homeTable urlPatternTest "/away" initialSt).st.outlet.children.tags
      = ["home-view"] ∧
    (navigate homeTable urlPatternTest "/away" initialSt).st.historyRoute = some "home" ∧
    (navigate homeTable urlPatternTest "/away" initialSt).st.redirectionCount = 0 ∧
    (navigate homeTable urlPatternTest "/away" initialSt).unhandled = [] ∧
    (navigate homeTable urlPatternTest "/away" initialSt).hops = 1 ∧
    (navigateAux homeTable urlPatternTest 201 "home" ⟨1, none, outlet0, 2⟩).result
      = Except.ok (some "home") :=
  ⟨by decide, by decide, by decide, by decide, by decide, by decide⟩

theorem materialize_tags (c : InternalRoute) (n m : Nat) :
    (materialize c n).map DomNode.tag = (materialize c m).map DomNode.tag := by
  rw [materialize, materialize, List.map_map, List.map_map]
  rfl

theorem navigateAux_second_run (routes : List InternalRoute) (test : String → String → Bool) :
    ∀ (f2 : Nat) (route : String) (st2 : RouterSt) (f1 : Nat) (st0 : RouterSt),
      MAX_REDIRECTIONS + 2 - st0.redirectionCount ≤ f1 →
      f2 ≤ MAX_REDIRECTIONS + 2 - st2.redirectionCount →
      st2.outlet = (navigateAux routes test f1 route st0).st.outlet →
      (navigateAux routes test f1 route st0).st.redirectionCount ≤ st2.redirectionCount →
      (navigateAux routes test f2 route st2).events = [] ∧
      (navigateAux routes test f2 route st2).st.outlet = st2.outlet := by
  intro f2
  induction f2 with
  | zero =>
      intro route st2 f1 st0 hf1 hf2 hout hcnt
      rw [navigateAux]
      exact ⟨rfl, rfl⟩
  | succ f ih =>
      intro route st2 f1 st0 hf1 hf2 hout hcnt
      cases hmatch : getMatchingRoute test routes route with
      | none =>
          rw [navigateAux_nomatch f hmatch]
          exact ⟨rfl, rfl⟩
      | some c =>
          cases hred : whereToRedirect c with
          | some target =>
              by_cases hg2 : st2.redirectionCount > MAX_REDIRECTIONS
              · rw [navigateAux_redirect_guard f hmatch hred hg2]
                exact ⟨rfl, rfl⟩
              · rw [navigateAux_redirect_hop f hmatch hred hg2]
                cases f1 with
                | zero =>
                    exfalso
                    rw [navigateAux] at hcnt
                    dsimp only at hcnt
                    omega
                | succ f1p =>
                    by_cases hg1 : st0.redirectionCount > MAX_REDIRECTIONS
                    · exfalso
                      rw [navigateAux_redirect_guard f1p hmatch hred hg1] at hcnt
                      dsimp only at hcnt
                      omega
                    · rw [navigateAux_redirect_hop f1p hmatch hred hg1] at hout hcnt
                      dsimp only at hout hcnt ⊢
                      have hih := ih target
                        { st2 with nextId := st2.nextId + c.component.length,
                                   redirectionCount := st2.redirectionCount + 1 }
                        f1p
                        { st0 with nextId := st0.nextId + c.component.length,
                                   redirectionCount := st0.redirectionCount + 1 }
                        (by show MAX_REDIRECTIONS + 2 - (st0.redirectionCount + 1) ≤ f1p; omega)
                        (by show f ≤ MAX_REDIRECTIONS + 2 - (st2.redirectionCount + 1); omega)
                        hout
                        (le_trans hcnt (Nat.le_succ _))
                      exact ⟨hih.1, hih.2⟩
          | none =>
              rw [navigateAux_commit f hmatch hred]
              dsimp only
              cases f1 with
              | zero =>
                  exfalso
                  rw [navigateAux] at hcnt
                  dsimp only at hcnt
                  omega
              | succ f1p =>
                  rw [navigateAux_commit f1p hmatch hred] at hout
                  dsimp only at hout
                  have hidem := replaceRouteNodesGo_idem (materialize c st0.nextId)
                    (materialize c st2.nextId) st0.outlet
                    (materialize_tags c st2.nextId st0.nextId)
                  rw [replaceRouteNodes, List.drop_zero] at hout
                  constructor
                  · show (replaceRouteNodes (materialize c st2.nextId) st2.outlet 0).2 = []
                    rw [replaceRouteNodes, List.drop_zero, hout, hidem]
                  · show (replaceRouteNodes (materialize c st2.nextId) st2.outlet 0).1 = st2.outlet
                    rw [replaceRouteNodes, List.drop_zero, hout, hidem]

/-- C9: a second navigation to the same path, started from the state a
first navigation left behind, performs zero DOM removals, zero DOM
insertions and plays zero animations (an empty effect trace), and
leaves the outlet's subtree exactly as the first navigation left it. -/
theorem navigate_idempotent (routes : List InternalRoute) (test : String → String → Bool)
    (route : String) (st : RouterSt) :
    (navigate routes test route ((navigate routes test route st).st)).events = [] ∧
    (navigate routes test route ((navigate routes test route st).st)).st.outlet
      = (navigate routes test route st).st.outlet := by
  rw [navigate, navigate]
  exact navigateAux_second_run routes test
    (MAX_REDIRECTIONS + 2
      - (navigateAux routes test (MAX_REDIRECTIONS + 2 - st.redirectionCount) route st).st.redirectionCount)
    route
    (navigateAux routes test (MAX_REDIRECTIONS + 2 - st.redirectionCount) route st).st
    (MAX_REDIRECTIONS + 2 - st.redirectionCount) st
    (le_refl _) (le_refl _) rfl (le_refl _)

end HailRouter
